import Mathlib

/-!
Verification development for the CKB prediction-market validator pair
(the Market type script and the Market-Token type script).

The Rust sources are shallowly embedded: cells are records, a transaction
is an input list plus an output list, syscalls (`load_cell_data`,
`load_cell_type_hash`, ...) become list lookups, and fallible code is
modelled in `Except`.  Machine integers become `Nat` with the overflow
checks of the source (`checked_add`, `checked_mul`, `try_into::<u64>`)
made explicit against `2^128` / `2^64` bounds.  The blake2b hash used by
CKB for script hashes and Type-ID derivation cannot be embedded; it is
replaced by an executable injective stand-in (`ckb_blake2b`), which is
adequate because both validators use hashes only through equality tests.
-/

deriving instance DecidableEq for Except

/-- A byte string, modelled as a list of naturals. -/
abbrev Bytes := List Nat

/-- CKB script: code hash, hash type byte, args.  Two scripts are equal iff
all three fields are byte-identical. -/
structure Script where
  code_hash : Bytes
  hash_type : Nat
  args : Bytes
deriving DecidableEq, Repr

/-- Executable injective stand-in for the blake2b-256 hash CKB applies to
serialized data (length-prefixing makes distinct inputs stay distinct). -/
def ckb_blake2b (bs : Bytes) : Bytes := bs.length :: bs

/-- Stand-in for `Script::calc_script_hash`: hash of the serialized script. -/
def script_hash (s : Script) : Bytes :=
  ckb_blake2b (s.code_hash ++ [s.hash_type, s.args.length] ++ s.args)

/-- A transaction cell: capacity (u64 shannons), lock script, optional type
script, and data payload. -/
structure Cell where
  capacity : Nat
  lock : Script
  type_script : Option Script
  data : Bytes
deriving DecidableEq, Repr

/-- What `load_cell_type_hash` returns for a cell. -/
def Cell.type_hash (c : Cell) : Option Bytes := c.type_script.map script_hash

/-- A transaction as both validators see it: input cells, output cells, and
the serialized previous out-point of each input (used only by Type-ID
creation). -/
structure Tx where
  inputs : List Cell
  outputs : List Cell
  input_out_points : List Bytes
deriving DecidableEq, Repr

/-- Little-endian byte list to natural number. -/
def le_bytes_to_nat : Bytes → Nat
| [] => 0
| b :: rest => b + 256 * le_bytes_to_nat rest

/-- `u64::to_le_bytes`. -/
def nat_to_le8 (n : Nat) : Bytes :=
  [n % 256, n / 256 % 256, n / 256 ^ 2 % 256, n / 256 ^ 3 % 256,
   n / 256 ^ 4 % 256, n / 256 ^ 5 % 256, n / 256 ^ 6 % 256, n / 256 ^ 7 % 256]

/-- Exclusive upper bound of `u128`. -/
def U128_LIMIT : Nat := 2 ^ 128

/-- Exclusive upper bound of `u64`. -/
def U64_LIMIT : Nat := 2 ^ 64

/-- `u128::checked_add`. -/
def checked_add_u128 (a b : Nat) : Option Nat :=
  if a + b < U128_LIMIT then some (a + b) else none

/-- `u128::checked_mul`. -/
def checked_mul_u128 (a b : Nat) : Option Nat :=
  if a * b < U128_LIMIT then some (a * b) else none

/-- `u128::checked_sub` (as `Option`, `none` on underflow). -/
def checked_sub_u128 (a b : Nat) : Option Nat :=
  if b ≤ a then some (a - b) else none

/-- The fixed collateral ratio: 1 token = 100 CKB = 10_000_000_000 shannons
(`SHANNONS_PER_TOKEN` in both `validate_claim` and `validate_transition`). -/
def SHANNONS_PER_TOKEN : Nat := 10000000000

namespace Market

/-- Error codes of the market type script (`contracts/market/src/main.rs`). -/
inductive Error where
  | IndexOutOfBound
  | ItemMissing
  | LengthNotEnough
  | Encoding
  | InvalidMarketData
  | MultipleMarketCells
  | SupplyDecrease
  | UnequalSupplyIncrease
  | InsufficientCollateral
  | LockScriptChanged
  | InvalidTypeId
  | TypeIdMismatch
deriving DecidableEq, Repr

/-- Market cell payload: token code hash (32 bytes), hash type byte,
resolved flag, outcome flag. -/
structure MarketData where
  token_code_hash : Bytes
  hash_type : Nat
  resolved : Bool
  outcome : Bool
deriving DecidableEq, Repr

/-- `MarketData::from_bytes`: requires at least 35 bytes of data; reads
bytes 0-31 as the token code hash, byte 32 as the hash type, byte 33 as
`resolved` and byte 34 as `outcome` (nonzero means true). -/
def MarketData.from_bytes (data : Bytes) : Except Error MarketData :=
  if data.length < 35 then .error .LengthNotEnough
  else .ok { token_code_hash := data.take 32
           , hash_type := data.getD 32 0
           , resolved := data.getD 33 0 != 0
           , outcome := data.getD 34 0 != 0 }

/-- `MarketData::to_bytes`: 32-byte token code hash, then hash type,
resolved and outcome bytes (35 bytes in total). -/
def MarketData.to_bytes (md : MarketData) : Bytes :=
  md.token_code_hash ++ [md.hash_type, cond md.resolved 1 0, cond md.outcome 1 0]

/-- `count_market_cells`: cells of the source whose type hash equals the
market script's own hash. -/
def count_market_cells (ms : Script) (cells : List Cell) : Nat :=
  cells.countP (fun c => decide (c.type_hash = some (script_hash ms)))

/-- First cell of a source carrying the given type-script hash. -/
def find_market_cell (h : Bytes) (cells : List Cell) : Option Cell :=
  cells.find? (fun c => decide (c.type_hash = some h))

/-- `load_market_data`: parse the data of the first market cell of a source. -/
def load_market_data (ms : Script) (cells : List Cell) : Except Error MarketData :=
  match find_market_cell (script_hash ms) cells with
  | some c => MarketData.from_bytes c.data
  | none => .error .ItemMissing

/-- `load_market_capacity`: capacity of the first market cell of a source. -/
def load_market_capacity (ms : Script) (cells : List Cell) : Except Error Nat :=
  match find_market_cell (script_hash ms) cells with
  | some c => .ok c.capacity
  | none => .error .ItemMissing

/-- `load_market_lock`: lock script of the first market cell of a source. -/
def load_market_lock (ms : Script) (cells : List Cell) : Except Error Script :=
  match find_market_cell (script_hash ms) cells with
  | some c => .ok c.lock
  | none => .error .ItemMissing

/-- `derive_token_type_hash`: expected type-script hash for the YES
(`token_id = 1`) or NO (`token_id = 2`) token, built from the market's own
token code hash, hash type and the market's own script hash. -/
def derive_token_type_hash (token_code_hash : Bytes) (hash_type : Nat)
    (market_type_hash : Bytes) (token_id : Nat) : Except Error Bytes :=
  if hash_type = 0 ∨ hash_type = 1 ∨ hash_type = 2 ∨ hash_type = 4 then
    .ok (script_hash { code_hash := token_code_hash
                     , hash_type := hash_type
                     , args := market_type_hash ++ [token_id] })
  else .error .Encoding

/-- Totals of YES and NO tokens found in one source. -/
structure TokenCounts where
  yes_tokens : Nat
  no_tokens : Nat
deriving DecidableEq, Repr

/-- Recursive worker of `count_tokens`. -/
def count_tokens_go (yes_h no_h : Bytes) (acc : TokenCounts) :
    List Cell → Except Error TokenCounts
| [] => .ok acc
| c :: rest =>
  match c.type_hash with
  | none => count_tokens_go yes_h no_h acc rest
  | some th =>
    if th = yes_h then
      if c.data.length < 16 then .error .LengthNotEnough
      else
        match checked_add_u128 acc.yes_tokens (le_bytes_to_nat (c.data.take 16)) with
        | some s => count_tokens_go yes_h no_h { acc with yes_tokens := s } rest
        | none => .error .Encoding
    else if th = no_h then
      if c.data.length < 16 then .error .LengthNotEnough
      else
        match checked_add_u128 acc.no_tokens (le_bytes_to_nat (c.data.take 16)) with
        | some s => count_tokens_go yes_h no_h { acc with no_tokens := s } rest
        | none => .error .Encoding
    else count_tokens_go yes_h no_h acc rest

/-- `count_tokens`: sum the amounts (first 16 little-endian data bytes) of
the cells whose type hash equals the expected YES or NO token hash, with
overflow-checked addition. -/
def count_tokens (cells : List Cell) (yes_h no_h : Bytes) : Except Error TokenCounts :=
  count_tokens_go yes_h no_h { yes_tokens := 0, no_tokens := 0 } cells

/-- `validate_creation`: a newly created market must be unresolved and carry
a nonzero token code hash. -/
def validate_creation (output_data : MarketData) : Except Error Unit :=
  if output_data.resolved then .error .InvalidMarketData
  else if output_data.token_code_hash = List.replicate 32 0 then .error .InvalidMarketData
  else .ok ()

/-- `validate_lock_preserved`: input and output market cells must carry
byte-identical lock scripts. -/
def validate_lock_preserved (ms : Script) (tx : Tx) : Except Error Unit :=
  match load_market_lock ms tx.inputs with
  | .error e => .error e
  | .ok il =>
    match load_market_lock ms tx.outputs with
    | .error e => .error e
    | .ok ol => if il ≠ ol then .error .LockScriptChanged else .ok ()

/-- `validate_claim`: on a resolved market with decreasing capacity, the
winning side (chosen by `outcome`) burns a positive amount, the losing side
is unchanged, and the capacity decrease is exactly `burned ×
SHANNONS_PER_TOKEN`. -/
def validate_claim (md : MarketData) (icap ocap : Nat)
    (icnt ocnt : TokenCounts) : Except Error Unit :=
  let step : Except Error (Nat × Nat × Nat) :=
    if md.outcome then
      match checked_sub_u128 icnt.yes_tokens ocnt.yes_tokens with
      | some yb => .ok (yb, icnt.no_tokens, ocnt.no_tokens)
      | none => .error .Encoding
    else
      match checked_sub_u128 icnt.no_tokens ocnt.no_tokens with
      | some nb => .ok (nb, icnt.yes_tokens, ocnt.yes_tokens)
      | none => .error .Encoding
  match step with
  | .error e => .error e
  | .ok (winning_burned, losing_input, losing_output) =>
    if losing_output ≠ losing_input then .error .InvalidMarketData
    else if winning_burned = 0 then .error .SupplyDecrease
    else
      match checked_mul_u128 winning_burned SHANNONS_PER_TOKEN with
      | none => .error .Encoding
      | some expected =>
        if expected < U64_LIMIT then
          if icap - ocap ≠ expected then .error .InsufficientCollateral else .ok ()
        else .error .Encoding

/-- Burn branch of `validate_transition` (unresolved market, capacity
decreased): equal positive YES/NO burns and an exact-ratio capacity
decrease. -/
def burn_rules (icap ocap : Nat) (icnt ocnt : TokenCounts) : Except Error Unit :=
  match checked_sub_u128 icnt.yes_tokens ocnt.yes_tokens with
  | none => .error .Encoding
  | some yes_burned =>
    match checked_sub_u128 icnt.no_tokens ocnt.no_tokens with
    | none => .error .Encoding
    | some no_burned =>
      if yes_burned = 0 ∧ no_burned = 0 then .error .SupplyDecrease
      else if yes_burned ≠ no_burned then .error .UnequalSupplyIncrease
      else
        match checked_mul_u128 yes_burned SHANNONS_PER_TOKEN with
        | none => .error .Encoding
        | some expected =>
          if expected < U64_LIMIT then
            if icap - ocap ≠ expected then .error .InsufficientCollateral else .ok ()
          else .error .Encoding

/-- Mint branch of `validate_transition` (unresolved market, capacity
increased): equal positive YES/NO mints and an exact-ratio capacity
increase. -/
def mint_rules (icap ocap : Nat) (icnt ocnt : TokenCounts) : Except Error Unit :=
  match checked_sub_u128 ocnt.yes_tokens icnt.yes_tokens with
  | none => .error .Encoding
  | some yes_minted =>
    match checked_sub_u128 ocnt.no_tokens icnt.no_tokens with
    | none => .error .Encoding
    | some no_minted =>
      if yes_minted = 0 ∧ no_minted = 0 then .error .SupplyDecrease
      else if yes_minted ≠ no_minted then .error .UnequalSupplyIncrease
      else
        match checked_mul_u128 yes_minted SHANNONS_PER_TOKEN with
        | none => .error .Encoding
        | some expected =>
          if expected < U64_LIMIT then
            if ocap - icap ≠ expected then .error .InsufficientCollateral else .ok ()
          else .error .Encoding

/-- No-operation branch of `validate_transition` on an unresolved market:
token totals must not change when the capacity does not change. -/
def noop_rules (icnt ocnt : TokenCounts) : Except Error Unit :=
  if ocnt.yes_tokens ≠ icnt.yes_tokens then .error .InsufficientCollateral
  else if ocnt.no_tokens ≠ icnt.no_tokens then .error .InsufficientCollateral
  else .ok ()

/-- Core of `validate_transition` after all loads: the resolved /
unresolved branch structure of `contracts/market/src/main.rs` lines
424-583. -/
def transition_rules (idat odat : MarketData) (icap ocap : Nat)
    (icnt ocnt : TokenCounts) : Except Error Unit :=
  if idat.resolved then
    match (if ocap < icap then validate_claim idat icap ocap icnt ocnt
           else if ocap = icap then
             (if ocnt.yes_tokens ≠ icnt.yes_tokens ∨ ocnt.no_tokens ≠ icnt.no_tokens
              then .error .InvalidMarketData else .ok ())
           else .error .InvalidMarketData : Except Error Unit) with
    | .error e => .error e
    | .ok _ =>
      if odat.resolved = false then .error .InvalidMarketData
      else if odat.outcome ≠ idat.outcome then .error .InvalidMarketData
      else .ok ()
  else
    match (if ocap < icap then burn_rules icap ocap icnt ocnt
           else if icap < ocap then mint_rules icap ocap icnt ocnt
           else noop_rules icnt ocnt : Except Error Unit) with
    | .error e => .error e
    | .ok _ =>
      if odat.resolved then
        if icnt.yes_tokens ≠ ocnt.yes_tokens then .error .InvalidMarketData
        else if icnt.no_tokens ≠ ocnt.no_tokens then .error .InvalidMarketData
        else .ok ()
      else
        if odat.outcome ≠ idat.outcome then .error .InvalidMarketData
        else .ok ()

/-- `validate_transition`: lock preservation, frozen token code hash and
hash type, then load capacities, derive both token identities, count both
sides in inputs and outputs, and apply `transition_rules`. -/
def validate_transition (ms : Script) (tx : Tx) (idat odat : MarketData) :
    Except Error Unit :=
  match validate_lock_preserved ms tx with
  | .error e => .error e
  | .ok _ =>
    if idat.token_code_hash ≠ odat.token_code_hash then .error .InvalidMarketData
    else if idat.hash_type ≠ odat.hash_type then .error .InvalidMarketData
    else
      match load_market_capacity ms tx.inputs with
      | .error e => .error e
      | .ok icap =>
        match load_market_capacity ms tx.outputs with
        | .error e => .error e
        | .ok ocap =>
          match derive_token_type_hash idat.token_code_hash idat.hash_type
              (script_hash ms) 1 with
          | .error e => .error e
          | .ok yes_h =>
            match derive_token_type_hash idat.token_code_hash idat.hash_type
                (script_hash ms) 2 with
            | .error e => .error e
            | .ok no_h =>
              match count_tokens tx.inputs yes_h no_h with
              | .error e => .error e
              | .ok icnt =>
                match count_tokens tx.outputs yes_h no_h with
                | .error e => .error e
                | .ok ocnt => transition_rules idat odat icap ocap icnt ocnt

/-- `find_market_output_index`: index of the first output market cell. -/
def find_market_output_index (ms : Script) (tx : Tx) : Except Error Nat :=
  match tx.outputs.findIdx? (fun c => decide (c.type_hash = some (script_hash ms))) with
  | some i => .ok i
  | none => .error .ItemMissing

/-- `validate_type_id_persistence`: the type-script args of the first input
cell of the market group must equal the running script's args. -/
def validate_type_id_persistence (ms : Script) (tx : Tx) (output_args : Bytes) :
    Except Error Unit :=
  match find_market_cell (script_hash ms) tx.inputs with
  | none => .error .ItemMissing
  | some c =>
    match c.type_script with
    | none => .error .ItemMissing
    | some t => if output_args ≠ t.args then .error .TypeIdMismatch else .ok ()

/-- `validate_type_id`: args must be 32 bytes; on creation they must equal
the hash of the first input's out-point concatenated with the market
output's index; on update they must persist from the input market cell. -/
def validate_type_id (ms : Script) (tx : Tx) (input_count : Nat) : Except Error Unit :=
  if ms.args.length ≠ 32 then .error .InvalidTypeId
  else if input_count = 0 then
    match tx.input_out_points.get? 0 with
    | none => .error .IndexOutOfBound
    | some op =>
      match find_market_output_index ms tx with
      | .error e => .error e
      | .ok output_index =>
        if ms.args ≠ ckb_blake2b (op ++ nat_to_le8 output_index)
        then .error .InvalidTypeId else .ok ()
  else validate_type_id_persistence ms tx ms.args

/-- Entry point of the market type script (`main` in
`contracts/market/src/main.rs`): exactly one output market cell, Type-ID
validation, then creation or transition validation. -/
def market_main (ms : Script) (tx : Tx) : Except Error Unit :=
  let input_count := count_market_cells ms tx.inputs
  let output_count := count_market_cells ms tx.outputs
  if output_count ≠ 1 then .error .MultipleMarketCells
  else
    match validate_type_id ms tx input_count with
    | .error e => .error e
    | .ok _ =>
      match load_market_data ms tx.outputs with
      | .error e => .error e
      | .ok output_data =>
        if input_count = 0 then validate_creation output_data
        else if input_count = 1 then
          match load_market_data ms tx.inputs with
          | .error e => .error e
          | .ok input_data => validate_transition ms tx input_data output_data
        else .error .MultipleMarketCells

end Market

namespace Token

/-- Error codes of the market-token type script
(`contracts/market-token/src/main.rs`). -/
inductive Error where
  | IndexOutOfBound
  | ItemMissing
  | LengthNotEnough
  | Encoding
  | InvalidTokenId
  | UnauthorizedMinting
  | InvalidDataLength
  | LimitOrderPaymentMismatch
  | LimitOrderInvalidAmount
deriving DecidableEq, Repr

/-- Token side marker: YES (`0x01`) or NO (`0x02`). -/
inductive TokenType where
  | Yes
  | No
deriving DecidableEq, Repr

/-- `TokenType::from_u8`. -/
def TokenType.from_u8 (v : Nat) : Except Error TokenType :=
  if v = 1 then .ok .Yes
  else if v = 2 then .ok .No
  else .error .InvalidTokenId

/-- Token type-script args: 32-byte market type hash followed by the token
id byte. -/
structure TypeScriptArgs where
  market_type_hash : Bytes
  token_id : TokenType
deriving DecidableEq, Repr

/-- `TypeScriptArgs::from_bytes`: at least 33 bytes, market hash in bytes
0-31, token id in byte 32. -/
def TypeScriptArgs.from_bytes (data : Bytes) : Except Error TypeScriptArgs :=
  if data.length < 33 then .error .LengthNotEnough
  else
    match TokenType.from_u8 (data.getD 32 0) with
    | .error e => .error e
    | .ok tid => .ok { market_type_hash := data.take 32, token_id := tid }

/-- `parse_token_data`: 16 bytes mean `(amount, 0)` (legacy format), 32
bytes mean `(amount, limit_price)`, anything else is rejected. -/
def parse_token_data (data : Bytes) : Except Error (Nat × Nat) :=
  if data.length = 16 then .ok (le_bytes_to_nat data, 0)
  else if data.length = 32 then
    .ok (le_bytes_to_nat (data.take 16), le_bytes_to_nat (data.drop 16))
  else .error .InvalidDataLength

/-- Recursive worker of `sum_token_amounts`. -/
def sum_token_amounts_go (sh : Bytes) (acc : Nat) : List Cell → Except Error Nat
| [] => .ok acc
| c :: rest =>
  match c.type_hash with
  | none => sum_token_amounts_go sh acc rest
  | some th =>
    if th = sh then
      match parse_token_data c.data with
      | .error e => .error e
      | .ok (amount, _) =>
        match checked_add_u128 acc amount with
        | some t => sum_token_amounts_go sh t rest
        | none => .error .Encoding
    else sum_token_amounts_go sh acc rest

/-- `sum_token_amounts`: total amount over the cells of one source whose
type hash equals the running token script's hash, overflow-checked. -/
def sum_token_amounts (sh : Bytes) (cells : List Cell) : Except Error Nat :=
  sum_token_amounts_go sh 0 cells

/-- `market_cell_in_inputs`: some input cell's type hash equals the market
type hash carried in the token script's args. -/
def market_cell_in_inputs (market_type_hash : Bytes) (tx : Tx) : Bool :=
  tx.inputs.any (fun c => decide (c.type_hash = some market_type_hash))

/-- Recursive worker of `find_matching_output_amount`: scan outputs for the
first same-token cell with the order's lock code hash, lock args and limit
price; a candidate differing only in price is skipped. -/
def find_matching_go (sh ich ia : Bytes) (input_price : Nat) :
    List Cell → Except Error Nat
| [] => .ok 0
| c :: rest =>
  match c.type_hash with
  | none => find_matching_go sh ich ia input_price rest
  | some th =>
    if th = sh then
      if c.lock.code_hash ≠ ich then find_matching_go sh ich ia input_price rest
      else if c.lock.args ≠ ia then find_matching_go sh ich ia input_price rest
      else
        match parse_token_data c.data with
        | .error e => .error e
        | .ok (amount, output_price) =>
          if output_price = input_price then .ok amount
          else find_matching_go sh ich ia input_price rest
    else find_matching_go sh ich ia input_price rest

/-- `find_matching_output_amount`: remainder amount for the order input at
`input_index`, or 0 when no output matches all criteria. -/
def find_matching_output_amount (s : Script) (tx : Tx) (input_index : Nat)
    (input_price : Nat) : Except Error Nat :=
  match tx.inputs.get? input_index with
  | none => .error .IndexOutOfBound
  | some c => find_matching_go (script_hash s) c.lock.code_hash c.lock.args
      input_price tx.outputs

/-- Sum of capacities of type-less output cells whose lock hash equals the
seller key (first loop of `calc_net_ckb_payment_to_seller`). -/
def sum_seller_outputs (seller : Bytes) (acc : Nat) : List Cell → Except Error Nat
| [] => .ok acc
| c :: rest =>
  match c.type_script with
  | some _ => sum_seller_outputs seller acc rest
  | none =>
    if script_hash c.lock = seller then
      match checked_add_u128 acc c.capacity with
      | some t => sum_seller_outputs seller t rest
      | none => .error .Encoding
    else sum_seller_outputs seller acc rest

/-- Sum of capacities of type-less input cells whose lock hash equals the
seller key, also reporting whether any such cell exists (the
`buyer_is_seller` flag of `calc_net_ckb_payment_to_seller`). -/
def sum_seller_inputs (seller : Bytes) (acc : Nat) (flag : Bool) :
    List Cell → Except Error (Nat × Bool)
| [] => .ok (acc, flag)
| c :: rest =>
  match c.type_script with
  | some _ => sum_seller_inputs seller acc flag rest
  | none =>
    if script_hash c.lock = seller then
      match checked_add_u128 acc c.capacity with
      | some t => sum_seller_inputs seller t true rest
      | none => .error .Encoding
    else sum_seller_inputs seller acc flag rest

/-- `calc_net_ckb_payment_to_seller`: net CKB paid to the seller key stored
in the order input's lock args (outputs minus inputs, saturating at zero),
plus the self-trade flag. -/
def calc_net_ckb_payment_to_seller (tx : Tx) (input_index : Nat) :
    Except Error (Nat × Bool) :=
  match tx.inputs.get? input_index with
  | none => .error .IndexOutOfBound
  | some c =>
    match sum_seller_outputs c.lock.args 0 tx.outputs with
    | .error e => .error e
    | .ok output_total =>
      match sum_seller_inputs c.lock.args 0 false tx.inputs with
      | .error e => .error e
      | .ok (input_total, buyer_is_seller) =>
        .ok (output_total - input_total, buyer_is_seller)

/-- `calc_required_payment`: `(amount - remainder) × limit_price` with the
remainder from `find_matching_output_amount`; a remainder above the order
amount is rejected. -/
def calc_required_payment (s : Script) (tx : Tx) (input_index : Nat)
    (input_amount limit_price : Nat) : Except Error Nat :=
  match find_matching_output_amount s tx input_index limit_price with
  | .error e => .error e
  | .ok output_amount =>
    if input_amount < output_amount then .error .LimitOrderInvalidAmount
    else
      match checked_mul_u128 (input_amount - output_amount) limit_price with
      | some r => .ok r
      | none => .error .Encoding

/-- Recursive worker of `seller_already_processed`. -/
def seller_already_processed_go (sh seller : Bytes) : List Cell → Except Error Bool
| [] => .ok false
| c :: rest =>
  match c.type_hash with
  | none => seller_already_processed_go sh seller rest
  | some th =>
    if th = sh then
      match parse_token_data c.data with
      | .error e => .error e
      | .ok (_, limit_price) =>
        if 0 < limit_price then
          if c.lock.args = seller then .ok true
          else seller_already_processed_go sh seller rest
        else seller_already_processed_go sh seller rest
    else seller_already_processed_go sh seller rest

/-- `seller_already_processed`: some strictly earlier same-token order
input carries the same seller key. -/
def seller_already_processed (sh seller : Bytes) (tx : Tx) (i : Nat) :
    Except Error Bool :=
  seller_already_processed_go sh seller (tx.inputs.take i)

/-- Inner loop of `validate_limit_orders_cumulative`: add the required
payments of every later order input with the same seller key. -/
def sum_later_orders (s : Script) (tx : Tx) (seller : Bytes) :
    Nat → List (Nat × Cell) → Except Error Nat
| acc, [] => .ok acc
| acc, (j, c) :: rest =>
  match c.type_hash with
  | none => sum_later_orders s tx seller acc rest
  | some th =>
    if th = script_hash s then
      match parse_token_data c.data with
      | .error e => .error e
      | .ok (aj, pj) =>
        if 0 < pj then
          if c.lock.args = seller then
            match calc_required_payment s tx j aj pj with
            | .error e => .error e
            | .ok rj =>
              match checked_add_u128 acc rj with
              | some t => sum_later_orders s tx seller t rest
              | none => .error .Encoding
          else sum_later_orders s tx seller acc rest
        else sum_later_orders s tx seller acc rest
    else sum_later_orders s tx seller acc rest

/-- Total required payment of the seller group whose first order input sits
at index `i`: the order's own requirement plus every later same-seller
order's requirement, all overflow-checked. -/
def seller_group_required (s : Script) (tx : Tx) (i : Nat)
    (amount limit_price : Nat) (seller : Bytes) : Except Error Nat :=
  match calc_required_payment s tx i amount limit_price with
  | .error e => .error e
  | .ok req =>
    match checked_add_u128 0 req with
    | none => .error .Encoding
    | some t0 => sum_later_orders s tx seller t0 (tx.inputs.enum.drop (i + 1))

/-- One iteration of the outer loop of `validate_limit_orders_cumulative`
for the input cell `c` at index `i`. -/
def order_step (s : Script) (tx : Tx) (i : Nat) (c : Cell) : Except Error Unit :=
  match c.type_hash with
  | none => .ok ()
  | some th =>
    if th = script_hash s then
      match parse_token_data c.data with
      | .error e => .error e
      | .ok (amount, limit_price) =>
        if 0 < limit_price then
          match seller_already_processed (script_hash s) c.lock.args tx i with
          | .error e => .error e
          | .ok true => .ok ()
          | .ok false =>
            match seller_group_required s tx i amount limit_price c.lock.args with
            | .error e => .error e
            | .ok total_required =>
              match calc_net_ckb_payment_to_seller tx i with
              | .error e => .error e
              | .ok (actual, buyer_is_seller) =>
                if buyer_is_seller = false ∧ actual ≠ total_required
                then .error .LimitOrderPaymentMismatch
                else .ok ()
        else .ok ()
    else .ok ()

/-- Outer loop of `validate_limit_orders_cumulative` over indexed inputs. -/
def validate_orders_go (s : Script) (tx : Tx) : List (Nat × Cell) → Except Error Unit
| [] => .ok ()
| (i, c) :: rest =>
  match order_step s tx i c with
  | .error e => .error e
  | .ok _ => validate_orders_go s tx rest

/-- `validate_limit_orders_cumulative`: run `order_step` over every input. -/
def validate_limit_orders_cumulative (s : Script) (tx : Tx) : Except Error Unit :=
  validate_orders_go s tx tx.inputs.enum

/-- Entry point of the market-token type script (`main` in
`contracts/market-token/src/main.rs`): parse args, sum both sides, accept
when the market cell is spent, otherwise enforce conservation and the
cumulative limit-order settlement. -/
def token_main (s : Script) (tx : Tx) : Except Error Unit :=
  match TypeScriptArgs.from_bytes s.args with
  | .error e => .error e
  | .ok args =>
    match sum_token_amounts (script_hash s) tx.inputs with
    | .error e => .error e
    | .ok input_amount =>
      match sum_token_amounts (script_hash s) tx.outputs with
      | .error e => .error e
      | .ok output_amount =>
        if market_cell_in_inputs args.market_type_hash tx then .ok ()
        else if input_amount < output_amount then .error .UnauthorizedMinting
        else validate_limit_orders_cumulative s tx

end Token

/-- Concrete token script used by examples: market hash `replicate 32 9`,
YES side. -/
def exTokS : Script := ⟨List.replicate 32 6, 1, List.replicate 32 9 ++ [1]⟩

/-- Concrete order-cell lock used by examples: permissive lock whose args
hold the seller key `[5]`. -/
def exOrderLock : Script := ⟨[8], 1, [5]⟩

/-- Example order input: 2 tokens at limit price 3. -/
def exOrderA : Cell :=
  ⟨10, exOrderLock, some exTokS, (2 :: List.replicate 15 0) ++ (3 :: List.replicate 15 0)⟩

/-- Example order input: 5 tokens at limit price 3, same seller key. -/
def exOrderB : Cell :=
  ⟨10, exOrderLock, some exTokS, (5 :: List.replicate 15 0) ++ (3 :: List.replicate 15 0)⟩

/-- Example remainder output: 1 token left at the same price 3. -/
def exRemainder : Cell :=
  ⟨10, exOrderLock, some exTokS, (1 :: List.replicate 15 0) ++ (3 :: List.replicate 15 0)⟩

/-- Example transaction with two same-seller orders and one remainder. -/
def exTwoOrdersTx : Tx := ⟨[exOrderA, exOrderB], [exRemainder], []⟩

/-- Example market script whose model hash is exactly 32 bytes long, so it
can stand in the first 32 bytes of token-script args. -/
def exMkt : Script := ⟨List.replicate 29 4, 1, []⟩

/-- Token script bound to `exMkt` (args = market hash plus YES byte). -/
def exTokOfMkt : Script := ⟨List.replicate 32 6, 1, script_hash exMkt ++ [1]⟩

/-- Transaction that spends the `exMkt` market cell together with a token
cell whose data has an invalid length (17 bytes). -/
def exMktBadDataTx : Tx :=
  ⟨[⟨100, ⟨[3], 0, []⟩, some exMkt, []⟩,
    ⟨200, ⟨[3], 0, []⟩, some exTokOfMkt, List.replicate 17 0⟩], [], [[0]]⟩

/-- Transaction that spends the `exMkt` market cell with well-formed token
cells: one 16-byte-amount input, all of it burned. -/
def exMktCleanTx : Tx :=
  ⟨[⟨100, ⟨[3], 0, []⟩, some exMkt, []⟩,
    ⟨200, ⟨[3], 0, []⟩, some exTokOfMkt, 7 :: List.replicate 15 0⟩], [], [[0]]⟩

/-- Example market script (Type-ID args of 32 bytes). -/
def exMktS : Script := ⟨[7], 1, List.replicate 32 9⟩

/-- Lock shared by the example market cells. -/
def exMktLock : Script := ⟨[3], 0, []⟩

/-- Market payload: unresolved, token code hash `replicate 32 2`,
hash type 1. -/
def exOpenData : Bytes := List.replicate 32 2 ++ [1, 0, 0]

/-- Market payload: resolved with outcome YES (byte 1). -/
def exResolvedData : Bytes := List.replicate 32 2 ++ [1, 1, 1]

/-- Market payload: resolved with outcome byte 2 (also truthy). -/
def exResolvedData2 : Bytes := List.replicate 32 2 ++ [1, 1, 2]

/-- YES token script the market derives for itself. -/
def exYesTokS : Script := ⟨List.replicate 32 2, 1, script_hash exMktS ++ [1]⟩

/-- NO token script the market derives for itself. -/
def exNoTokS : Script := ⟨List.replicate 32 2, 1, script_hash exMktS ++ [2]⟩

/-- 16-byte little-endian token amount 1. -/
def exAmount1 : Bytes := 1 :: List.replicate 15 0

/-- Mint of one complete set: capacity 0 → 10^10, one YES and one NO
token created. -/
def exMintTx : Tx :=
  ⟨[⟨0, exMktLock, some exMktS, exOpenData⟩],
   [⟨10000000000, exMktLock, some exMktS, exOpenData⟩,
    ⟨1, exMktLock, some exYesTokS, exAmount1⟩,
    ⟨1, exMktLock, some exNoTokS, exAmount1⟩], [[0]]⟩

/-- Claim of one winning YES token: capacity 10^10 → 0, YES input burned. -/
def exClaimTx : Tx :=
  ⟨[⟨10000000000, exMktLock, some exMktS, exResolvedData⟩,
    ⟨5, exMktLock, some exYesTokS, exAmount1⟩],
   [⟨0, exMktLock, some exMktS, exResolvedData⟩], [[0]]⟩

/-- Resolved no-op whose output outcome byte changes from 1 to 2 while
still parsing as true. -/
def exOutcomeByteTx : Tx :=
  ⟨[⟨7, exMktLock, some exMktS, exResolvedData⟩],
   [⟨7, exMktLock, some exMktS, exResolvedData2⟩], [[0]]⟩

/-- Example payment lock of a seller; its model hash is the seller key. -/
def exSellerLock : Script := ⟨[5], 0, []⟩

/-- Example seller key: the hash of the seller's payment lock. -/
def exSellerKey : Bytes := script_hash exSellerLock

/-- Order-cell lock whose args carry `exSellerKey`. -/
def exKeyedOrderLock : Script := ⟨[8], 1, exSellerKey⟩

/-- Order input of 2 tokens at price 3, payable to `exSellerKey`. -/
def exKeyedOrder : Cell :=
  ⟨10, exKeyedOrderLock, some exTokS,
   (2 :: List.replicate 15 0) ++ (3 :: List.replicate 15 0)⟩

/-- Fully-filled order paid exactly: 2 × 3 = 6 shannons to the seller. -/
def exPaidOrderTx : Tx := ⟨[exKeyedOrder], [⟨6, exSellerLock, none, []⟩], []⟩

/-- Self-trade: the order is consumed together with a plain cell owned by
the seller key, and nobody is paid. -/
def exSelfTradeTx : Tx := ⟨[exKeyedOrder, ⟨50, exSellerLock, none, []⟩], [], []⟩

/-- Matching criteria of `find_matching_output_amount` for one output
cell: same token type hash, same lock code hash, same lock args, and a
payload whose limit price equals the order's — a cell differing only in
limit price (including a change to 0) does not match. -/
def remainder_match (sh ich ia : Bytes) (price : Nat) (c : Cell) : Bool :=
  decide (c.type_hash = some sh) && decide (c.lock.code_hash = ich) &&
  decide (c.lock.args = ia) &&
  (match Token.parse_token_data c.data with
   | .ok (_, p) => decide (p = price)
   | .error _ => false)

/-- What the remainder lookup returns: either the amount of the first
output satisfying `remainder_match` (everything before it failing the
match), or 0 when no output matches. -/
def remainder_spec (sh ich ia : Bytes) (price : Nat) (l : List Cell) (r : Nat) : Prop :=
  (∃ pre ck post, l = pre ++ ck :: post ∧
     (∀ c' ∈ pre, remainder_match sh ich ia price c' = false) ∧
     remainder_match sh ich ia price ck = true ∧
     Token.parse_token_data ck.data = .ok (r, price)) ∨
  (r = 0 ∧ ∀ c' ∈ l, remainder_match sh ich ia price c' = false)

section ClaimC9

/-- Claim C9 counterexample: the MarketData payload is not 34 bytes — a
34-byte payload is rejected by `MarketData::from_bytes` with
`LengthNotEnough`, so the parser does not accept "exactly this 34-byte
layout". -/
theorem marketdata_34_bytes_rejected :
    Market.MarketData.from_bytes (List.replicate 34 1) = .error .LengthNotEnough := by
  decide

/-- Claim C9 (amended): the MarketData wire format is exactly 35 bytes —
32 bytes of token code hash, then one byte each of hash type, resolved
and outcome — and `MarketData::from_bytes` accepts a payload of exactly
this 35-byte layout, parsing it back to the serialized fields, while a
34-byte payload is rejected with `LengthNotEnough`. -/
theorem marketdata_wire_format (md : Market.MarketData) (data : Bytes)
    (h32 : md.token_code_hash.length = 32) (h34 : data.length = 34) :
    (Market.MarketData.to_bytes md).length = 35 ∧
    Market.MarketData.from_bytes (Market.MarketData.to_bytes md) = .ok md ∧
    Market.MarketData.from_bytes data = .error .LengthNotEnough := by
  obtain ⟨tc, htp, r, o⟩ := md
  simp only [Market.MarketData.to_bytes] at h32 ⊢
  have hlen : (tc ++ [htp, cond r 1 0, cond o 1 0]).length = 35 := by
    simp [h32]
  refine ⟨hlen, ?_, ?_⟩
  · unfold Market.MarketData.from_bytes
    rw [if_neg (by omega)]
    have ht : (tc ++ [htp, cond r 1 0, cond o 1 0]).take 32 = tc := by
      rw [← h32, List.take_left]
    have h1 : (tc ++ [htp, cond r 1 0, cond o 1 0]).getD 32 0 = htp := by
      rw [List.getD_eq_getElem?_getD, List.getElem?_append_right (by omega), h32]
      rfl
    have h2 : (tc ++ [htp, cond r 1 0, cond o 1 0]).getD 33 0 = cond r 1 0 := by
      rw [List.getD_eq_getElem?_getD, List.getElem?_append_right (by omega), h32]
      rfl
    have h3 : (tc ++ [htp, cond r 1 0, cond o 1 0]).getD 34 0 = cond o 1 0 := by
      rw [List.getD_eq_getElem?_getD, List.getElem?_append_right (by omega), h32]
      rfl
    rw [ht, h1, h2, h3]
    cases r <;> cases o <;> rfl
  · unfold Market.MarketData.from_bytes
    rw [if_pos (by omega)]

/-- Claim C9 witness: the amended statement at a concrete payload. -/
theorem marketdata_wire_format_witness :
    ((⟨List.replicate 32 1, 1, true, false⟩ : Market.MarketData).token_code_hash.length = 32) ∧
    ((Market.MarketData.to_bytes ⟨List.replicate 32 1, 1, true, false⟩).length = 35 ∧
     Market.MarketData.from_bytes
       (Market.MarketData.to_bytes ⟨List.replicate 32 1, 1, true, false⟩) =
       .ok ⟨List.replicate 32 1, 1, true, false⟩ ∧
     Market.MarketData.from_bytes (List.replicate 34 5) = .error .LengthNotEnough) :=
  ⟨by decide, marketdata_wire_format ⟨List.replicate 32 1, 1, true, false⟩
    (List.replicate 34 5) (by decide) (by decide)⟩

end ClaimC9

section ClaimC3

/-- Claim C3: when no input cell carries the market identity from the token
script's args, acceptance requires the output token total to be at most the
input token total, and a strictly larger output total is rejected with
`UnauthorizedMinting`. -/
theorem token_conservation (s : Script) (tx : Tx) (args : Token.TypeScriptArgs)
    (it ot : Nat)
    (hargs : Token.TypeScriptArgs.from_bytes s.args = .ok args)
    (hm : Token.market_cell_in_inputs args.market_type_hash tx = false)
    (hit : Token.sum_token_amounts (script_hash s) tx.inputs = .ok it)
    (hot : Token.sum_token_amounts (script_hash s) tx.outputs = .ok ot) :
    (Token.token_main s tx = .ok () → ot ≤ it) ∧
    (it < ot → Token.token_main s tx = .error .UnauthorizedMinting) := by
  unfold Token.token_main
  simp only [hargs, hit, hot, hm, Bool.false_eq_true, if_false]
  constructor
  · intro h
    by_contra hgt
    rw [if_pos (by omega : it < ot)] at h
    exact Except.noConfusion h
  · intro hlt
    rw [if_pos hlt]

/-- Claim C3 witness: a concrete no-market transfer satisfying the
hypotheses. -/
theorem token_conservation_witness :
    Token.TypeScriptArgs.from_bytes
      (Script.mk (List.replicate 32 6) 1 (List.replicate 32 9 ++ [1])).args =
      .ok ⟨List.replicate 32 9, Token.TokenType.Yes⟩ ∧
    ((Token.token_main (Script.mk (List.replicate 32 6) 1 (List.replicate 32 9 ++ [1]))
        (Tx.mk [] [] []) = .ok () → 0 ≤ 0) ∧
     (0 < 0 → Token.token_main
        (Script.mk (List.replicate 32 6) 1 (List.replicate 32 9 ++ [1]))
        (Tx.mk [] [] []) = .error .UnauthorizedMinting)) :=
  ⟨by decide,
   token_conservation (Script.mk (List.replicate 32 6) 1 (List.replicate 32 9 ++ [1]))
     (Tx.mk [] [] []) ⟨List.replicate 32 9, Token.TokenType.Yes⟩ 0 0
     (by decide) (by decide) (by decide) (by decide)⟩

end ClaimC3

section ClaimC10

/-- Claim C10: the remainder lookup depends on the order input only through
its lock code hash, lock args and limit price; two distinct order inputs
agreeing on those fields receive the same remainder, and their required
payments agree for every order amount. -/
theorem remainder_lookup_uniform (s : Script) (tx : Tx) (i1 i2 : Nat)
    (c1 c2 : Cell) (p : Nat)
    (hne : i1 ≠ i2)
    (h1 : tx.inputs.get? i1 = some c1)
    (h2 : tx.inputs.get? i2 = some c2)
    (hch : c1.lock.code_hash = c2.lock.code_hash)
    (ha : c1.lock.args = c2.lock.args) :
    Token.find_matching_output_amount s tx i1 p =
      Token.find_matching_output_amount s tx i2 p ∧
    ∀ a, Token.calc_required_payment s tx i1 a p =
      Token.calc_required_payment s tx i2 a p := by
  have hf : Token.find_matching_output_amount s tx i1 p =
      Token.find_matching_output_amount s tx i2 p := by
    unfold Token.find_matching_output_amount
    simp only [h1, h2]
    rw [hch, ha]
  refine ⟨hf, fun a => ?_⟩
  unfold Token.calc_required_payment
  rw [hf]

/-- Claim C10 witness: two same-seller orders in one transaction share the
single remainder output. -/
theorem remainder_lookup_uniform_witness :
    exTwoOrdersTx.inputs.get? 0 = some exOrderA ∧
    exTwoOrdersTx.inputs.get? 1 = some exOrderB ∧
    exOrderA.lock.code_hash = exOrderB.lock.code_hash ∧
    exOrderA.lock.args = exOrderB.lock.args ∧
    (Token.find_matching_output_amount exTokS exTwoOrdersTx 0 3 =
       Token.find_matching_output_amount exTokS exTwoOrdersTx 1 3 ∧
     ∀ a, Token.calc_required_payment exTokS exTwoOrdersTx 0 a 3 =
       Token.calc_required_payment exTokS exTwoOrdersTx 1 a 3) :=
  ⟨by decide, by decide, by decide, by decide,
   remainder_lookup_uniform exTokS exTwoOrdersTx 0 1 exOrderA exOrderB 3
     (by decide) (by decide) (by decide) (by decide) (by decide)⟩

end ClaimC10

section ClaimC7

/-- Claim C7 counterexample: a token-validator invocation whose inputs do
contain the market cell named by the script args, yet the validator rejects
(`InvalidDataLength`), because token amounts are summed before the
market-cell check — acceptance is not unconditional. -/
theorem market_delegation_not_unconditional :
    Token.TypeScriptArgs.from_bytes exTokOfMkt.args =
      .ok ⟨script_hash exMkt, Token.TokenType.Yes⟩ ∧
    Token.market_cell_in_inputs (script_hash exMkt) exMktBadDataTx = true ∧
    Token.token_main exTokOfMkt exMktBadDataTx = .error .InvalidDataLength := by
  refine ⟨by decide, by decide, by decide⟩

/-- Claim C7 (amended): when some input cell carries the market identity
parsed from the validator's args and the token-amount summation over both
sides succeeds, the validator accepts with no conservation or limit-order
checks applied. -/
theorem market_delegation_accepts (s : Script) (tx : Tx)
    (args : Token.TypeScriptArgs) (it ot : Nat)
    (hargs : Token.TypeScriptArgs.from_bytes s.args = .ok args)
    (hit : Token.sum_token_amounts (script_hash s) tx.inputs = .ok it)
    (hot : Token.sum_token_amounts (script_hash s) tx.outputs = .ok ot)
    (hm : Token.market_cell_in_inputs args.market_type_hash tx = true) :
    Token.token_main s tx = .ok () := by
  unfold Token.token_main
  simp only [hargs, hit, hot, hm, if_true]

/-- Claim C7 witness: the amended statement on a concrete market-spending
transaction with a well-formed token cell. -/
theorem market_delegation_accepts_witness :
    Token.market_cell_in_inputs (script_hash exMkt) exMktCleanTx = true ∧
    Token.token_main exTokOfMkt exMktCleanTx = .ok () :=
  ⟨by decide,
   market_delegation_accepts exTokOfMkt exMktCleanTx
     ⟨script_hash exMkt, Token.TokenType.Yes⟩ 7 0
     (by decide) (by decide) (by decide) (by decide)⟩

end ClaimC7

section ClaimC6

/-- A non-matching head cell extends a `remainder_spec` of the tail. -/
theorem remainder_spec_cons {sh ich ia : Bytes} {price : Nat} {c : Cell}
    {rest : List Cell} {r : Nat}
    (hrm : remainder_match sh ich ia price c = false)
    (h : remainder_spec sh ich ia price rest r) :
    remainder_spec sh ich ia price (c :: rest) r := by
  rcases h with ⟨pre, ck, post, heq, hpre, hck, hpp⟩ | ⟨hr, hall⟩
  · left
    refine ⟨c :: pre, ck, post, by rw [heq, List.cons_append], ?_, hck, hpp⟩
    intro c' hc'
    rcases List.mem_cons.mp hc' with rfl | hmem
    · exact hrm
    · exact hpre c' hmem
  · right
    refine ⟨hr, ?_⟩
    intro c' hc'
    rcases List.mem_cons.mp hc' with rfl | hmem
    · exact hrm
    · exact hall c' hmem

/-- `find_matching_go` satisfies `remainder_spec` on success. -/
theorem find_matching_go_spec (sh ich ia : Bytes) (price : Nat) (l : List Cell) :
    ∀ r, Token.find_matching_go sh ich ia price l = .ok r →
      remainder_spec sh ich ia price l r := by
  induction l with
  | nil =>
    intro r h
    unfold Token.find_matching_go at h
    injection h with h
    right
    exact ⟨h.symm, by simp⟩
  | cons c rest ih =>
    intro r h
    unfold Token.find_matching_go at h
    cases hth : c.type_hash with
    | none =>
      simp only [hth] at h
      have hrm : remainder_match sh ich ia price c = false := by
        simp [remainder_match, hth]
      exact remainder_spec_cons hrm (ih r h)
    | some th =>
      simp only [hth] at h
      by_cases hsh : th = sh
      · rw [if_pos hsh] at h
        rw [hsh] at hth
        by_cases hch : c.lock.code_hash = ich
        · rw [if_neg (by simp [hch])] at h
          by_cases hia : c.lock.args = ia
          · rw [if_neg (by simp [hia])] at h
            cases hpd : Token.parse_token_data c.data with
            | error e =>
              rw [hpd] at h
              exact Except.noConfusion h
            | ok v =>
              obtain ⟨a, op⟩ := v
              simp only [hpd] at h
              by_cases hop : op = price
              · rw [if_pos hop] at h
                injection h with h
                left
                refine ⟨[], c, rest, by simp, by simp, ?_, ?_⟩
                · simp [remainder_match, hth, hch, hia, hpd, hop]
                · rw [hpd, h, hop]
              · rw [if_neg hop] at h
                have hrm : remainder_match sh ich ia price c = false := by
                  simp [remainder_match, hpd, hop]
                exact remainder_spec_cons hrm (ih r h)
          · rw [if_pos hia] at h
            have hrm : remainder_match sh ich ia price c = false := by
              simp [remainder_match, hia]
            exact remainder_spec_cons hrm (ih r h)
        · rw [if_pos hch] at h
          have hrm : remainder_match sh ich ia price c = false := by
            simp [remainder_match, hch]
          exact remainder_spec_cons hrm (ih r h)
      · rw [if_neg hsh] at h
        have hrm : remainder_match sh ich ia price c = false := by
          simp [remainder_match, hth, hsh]
        exact remainder_spec_cons hrm (ih r h)

/-- Claim C6: the remainder of a limit-order input is the amount of the
first output cell of the same side whose lock code identity, lock args and
limit price all equal the order's; price-changed outputs never match, and
with no matching output the remainder is 0 (full fill). -/
theorem remainder_selection (s : Script) (tx : Tx) (i price r : Nat) (c : Cell)
    (hc : tx.inputs.get? i = some c)
    (h : Token.find_matching_output_amount s tx i price = .ok r) :
    remainder_spec (script_hash s) c.lock.code_hash c.lock.args price tx.outputs r := by
  unfold Token.find_matching_output_amount at h
  simp only [hc] at h
  exact find_matching_go_spec _ _ _ _ _ r h

/-- Claim C6 witness: the characterization at a concrete partial fill
(order of 2 at price 3, remainder output of 1 at price 3). -/
theorem remainder_selection_witness :
    exTwoOrdersTx.inputs.get? 0 = some exOrderA ∧
    Token.find_matching_output_amount exTokS exTwoOrdersTx 0 3 = .ok 1 ∧
    remainder_spec (script_hash exTokS) exOrderA.lock.code_hash
      exOrderA.lock.args 3 exTwoOrdersTx.outputs 1 :=
  ⟨by decide, by decide,
   remainder_selection exTokS exTwoOrdersTx 0 3 1 exOrderA (by decide) (by decide)⟩

end ClaimC6

section ClaimC5

/-- Once the self-trade flag of `sum_seller_inputs` is set it stays set. -/
theorem sum_seller_inputs_flag_mono (seller : Bytes) :
    ∀ (l : List Cell) (acc t : Nat) (b : Bool),
      Token.sum_seller_inputs seller acc true l = .ok (t, b) → b = true := by
  intro l
  induction l with
  | nil =>
    intro acc t b h
    unfold Token.sum_seller_inputs at h
    injection h with h
    exact (congrArg Prod.snd h).symm
  | cons c rest ih =>
    intro acc t b h
    unfold Token.sum_seller_inputs at h
    cases hts : c.type_script with
    | some s =>
      simp only [hts] at h
      exact ih acc t b h
    | none =>
      simp only [hts] at h
      by_cases hl : script_hash c.lock = seller
      · rw [if_pos hl] at h
        cases hca : checked_add_u128 acc c.capacity with
        | none =>
          rw [hca] at h
          exact Except.noConfusion h
        | some t2 =>
          rw [hca] at h
          exact ih t2 t b h
      · rw [if_neg hl] at h
        exact ih acc t b h

/-- A type-less input cell whose lock hash equals the seller key forces the
self-trade flag of `sum_seller_inputs` to come out true. -/
theorem sum_seller_inputs_flag_of_mem (seller : Bytes) :
    ∀ (l : List Cell) (acc t : Nat) (flag b : Bool) (c : Cell),
      c ∈ l → c.type_script = none → script_hash c.lock = seller →
      Token.sum_seller_inputs seller acc flag l = .ok (t, b) → b = true := by
  intro l
  induction l with
  | nil =>
    intro acc t flag b c hc
    exact absurd hc (List.not_mem_nil c)
  | cons c' rest ih =>
    intro acc t flag b c hc hn hl h
    unfold Token.sum_seller_inputs at h
    rcases List.mem_cons.mp hc with rfl | hmem
    · simp only [hn] at h
      rw [if_pos hl] at h
      cases hca : checked_add_u128 acc c.capacity with
      | none =>
        rw [hca] at h
        exact Except.noConfusion h
      | some t2 =>
        rw [hca] at h
        exact sum_seller_inputs_flag_mono seller rest t2 t b h
    · cases hts : c'.type_script with
      | some s =>
        simp only [hts] at h
        exact ih acc t flag b c hmem hn hl h
      | none =>
        simp only [hts] at h
        by_cases hl' : script_hash c'.lock = seller
        · rw [if_pos hl'] at h
          cases hca : checked_add_u128 acc c'.capacity with
          | none =>
            rw [hca] at h
            exact Except.noConfusion h
          | some t2 =>
            rw [hca] at h
            exact sum_seller_inputs_flag_mono seller rest t2 t b h
        · rw [if_neg hl'] at h
          exact ih acc t flag b c hmem hn hl h

/-- The self-trade flag of `calc_net_ckb_payment_to_seller` is true when
some type-less input cell's lock hash equals the seller key. -/
theorem calc_net_self_trade_flag (tx : Tx) (i : Nat) (c : Cell)
    (net : Nat) (bis : Bool) (j : Nat) (cj : Cell)
    (hc : tx.inputs.get? i = some c)
    (hj : tx.inputs.get? j = some cj)
    (hjn : cj.type_script = none)
    (hjl : script_hash cj.lock = c.lock.args)
    (hnet : Token.calc_net_ckb_payment_to_seller tx i = .ok (net, bis)) :
    bis = true := by
  unfold Token.calc_net_ckb_payment_to_seller at hnet
  simp only [hc] at hnet
  cases hso : Token.sum_seller_outputs c.lock.args 0 tx.outputs with
  | error e =>
    rw [hso] at hnet
    exact Except.noConfusion hnet
  | ok ot =>
    simp only [hso] at hnet
    cases hsi : Token.sum_seller_inputs c.lock.args 0 false tx.inputs with
    | error e =>
      rw [hsi] at hnet
      exact Except.noConfusion hnet
    | ok p =>
      obtain ⟨t, b⟩ := p
      simp only [hsi] at hnet
      injection hnet with hnet
      have hb : b = bis := congrArg Prod.snd hnet
      rw [← hb]
      exact sum_seller_inputs_flag_of_mem c.lock.args tx.inputs 0 t false b cj
        (List.get?_mem hj) hjn hjl hsi

/-- Claim C5: if any type-less input cell's lock hash equals a seller key,
the payment-equality check for that seller group is skipped and the group
is accepted whatever the net payment is (zero included). -/
theorem self_trade_exemption (s : Script) (tx : Tx) (i : Nat) (c : Cell)
    (amount price req net : Nat) (bis : Bool) (j : Nat) (cj : Cell)
    (hc : tx.inputs.get? i = some c)
    (hth : c.type_hash = some (script_hash s))
    (hparse : Token.parse_token_data c.data = .ok (amount, price))
    (hp : 0 < price)
    (hj : tx.inputs.get? j = some cj)
    (hjn : cj.type_script = none)
    (hjl : script_hash cj.lock = c.lock.args)
    (hproc : Token.seller_already_processed (script_hash s) c.lock.args tx i = .ok false)
    (hreq : Token.seller_group_required s tx i amount price c.lock.args = .ok req)
    (hnet : Token.calc_net_ckb_payment_to_seller tx i = .ok (net, bis)) :
    bis = true ∧ Token.order_step s tx i c = .ok () := by
  have hbis : bis = true := calc_net_self_trade_flag tx i c net bis j cj hc hj hjn hjl hnet
  refine ⟨hbis, ?_⟩
  unfold Token.order_step
  simp only [hth, if_pos rfl, hparse, if_pos hp, hproc, hreq, hnet]
  rw [if_neg (show ¬(bis = false ∧ net ≠ req) by simp [hbis])]
  simp

/-- Claim C5 witness: a seller reclaiming their own order with zero net
payment is accepted. -/
theorem self_trade_exemption_witness :
    Token.calc_net_ckb_payment_to_seller exSelfTradeTx 0 = .ok (0, true) ∧
    Token.token_main exTokS exSelfTradeTx = .ok () ∧
    (true = true ∧ Token.order_step exTokS exSelfTradeTx 0 exKeyedOrder = .ok ()) :=
  ⟨by decide, by decide,
   self_trade_exemption exTokS exSelfTradeTx 0 exKeyedOrder 2 3 6 0 true 1
     ⟨50, exSellerLock, none, []⟩
     (by decide) (by decide) (by decide) (by decide) (by decide) (by decide)
     (by decide) (by decide) (by decide) (by decide)⟩

end ClaimC5

section ClaimC4

/-- If the limit-order loop accepts, every single `order_step` accepted. -/
theorem validate_orders_go_elim (s : Script) (tx : Tx) :
    ∀ (l : List (Nat × Cell)), Token.validate_orders_go s tx l = .ok () →
      ∀ p ∈ l, Token.order_step s tx p.1 p.2 = .ok () := by
  intro l
  induction l with
  | nil =>
    intro _ p hp
    exact absurd hp (List.not_mem_nil p)
  | cons q rest ih =>
    intro h p hp
    obtain ⟨i, c⟩ := q
    unfold Token.validate_orders_go at h
    cases hs : Token.order_step s tx i c with
    | error e =>
      rw [hs] at h
      exact Except.noConfusion h
    | ok u =>
      rw [hs] at h
      rcases List.mem_cons.mp hp with rfl | hmem
      · exact hs
      · exact ih h p hmem

/-- An indexed lookup is a member of the enumeration. -/
theorem mem_enum_of_lookup {α : Type} {l : List α} {i : Nat} {c : α}
    (h : l.get? i = some c) : (i, c) ∈ l.enum := by
  rw [List.get?_eq_getElem?] at h
  exact List.mk_mem_enum_iff_getElem?.mpr h

/-- Token-validator acceptance of a no-market transaction implies the
limit-order loop accepted. -/
theorem token_main_orders_ok (s : Script) (tx : Tx) (args : Token.TypeScriptArgs)
    (hacc : Token.token_main s tx = .ok ())
    (hargs : Token.TypeScriptArgs.from_bytes s.args = .ok args)
    (hm : Token.market_cell_in_inputs args.market_type_hash tx = false) :
    Token.validate_limit_orders_cumulative s tx = .ok () := by
  unfold Token.token_main at hacc
  simp only [hargs] at hacc
  cases hit : Token.sum_token_amounts (script_hash s) tx.inputs with
  | error e =>
    rw [hit] at hacc
    exact Except.noConfusion hacc
  | ok it =>
    simp only [hit] at hacc
    cases hot : Token.sum_token_amounts (script_hash s) tx.outputs with
    | error e =>
      rw [hot] at hacc
      exact Except.noConfusion hacc
    | ok ot =>
      simp only [hot, hm, Bool.false_eq_true, if_false] at hacc
      by_cases hlt : it < ot
      · rw [if_pos hlt] at hacc
        exact Except.noConfusion hacc
      · rw [if_neg hlt] at hacc
        exact hacc

/-- Claim C4: in an accepted no-market transaction, every seller group —
identified at the first order input bearing its seller key — satisfies the
cumulative settlement equation: the overflow-checked sum of
`(amount - remainder) × limit_price` over all of the seller's orders is
defined (so no order's remainder exceeds its amount), and unless the
self-trade flag is set, the net payment to the seller equals it exactly. -/
theorem cumulative_settlement (s : Script) (tx : Tx) (args : Token.TypeScriptArgs)
    (i : Nat) (c : Cell) (amount price : Nat)
    (hacc : Token.token_main s tx = .ok ())
    (hargs : Token.TypeScriptArgs.from_bytes s.args = .ok args)
    (hm : Token.market_cell_in_inputs args.market_type_hash tx = false)
    (hc : tx.inputs.get? i = some c)
    (hth : c.type_hash = some (script_hash s))
    (hparse : Token.parse_token_data c.data = .ok (amount, price))
    (hp : 0 < price)
    (hfirst : Token.seller_already_processed (script_hash s) c.lock.args tx i = .ok false) :
    ∃ req net bis,
      Token.seller_group_required s tx i amount price c.lock.args = .ok req ∧
      Token.calc_net_ckb_payment_to_seller tx i = .ok (net, bis) ∧
      (bis = true ∨ net = req) := by
  have horders := token_main_orders_ok s tx args hacc hargs hm
  have hstep : Token.order_step s tx i c = .ok () := by
    have := validate_orders_go_elim s tx tx.inputs.enum horders (i, c)
      (mem_enum_of_lookup hc)
    exact this
  unfold Token.order_step at hstep
  simp only [hth, if_pos rfl, hparse, if_pos hp, hfirst] at hstep
  cases hreq : Token.seller_group_required s tx i amount price c.lock.args with
  | error e =>
    rw [hreq] at hstep
    exact Except.noConfusion hstep
  | ok req =>
    simp only [hreq] at hstep
    cases hnet : Token.calc_net_ckb_payment_to_seller tx i with
    | error e =>
      rw [hnet] at hstep
      exact Except.noConfusion hstep
    | ok p =>
      obtain ⟨net, bis⟩ := p
      simp only [hnet] at hstep
      refine ⟨req, net, bis, rfl, rfl, ?_⟩
      by_cases hbis : bis = true
      · exact Or.inl hbis
      · right
        by_contra hne2
        have hcond : bis = false ∧ net ≠ req := ⟨by simpa using hbis, hne2⟩
        rw [if_pos hcond] at hstep
        exact Except.noConfusion hstep

/-- Claim C4 witness: a single order of 2 tokens at price 3, fully filled
and paid exactly 6. -/
theorem cumulative_settlement_witness :
    Token.token_main exTokS exPaidOrderTx = .ok () ∧
    ∃ req net bis,
      Token.seller_group_required exTokS exPaidOrderTx 0 2 3
        exKeyedOrder.lock.args = .ok req ∧
      Token.calc_net_ckb_payment_to_seller exPaidOrderTx 0 = .ok (net, bis) ∧
      (bis = true ∨ net = req) :=
  ⟨by decide,
   cumulative_settlement exTokS exPaidOrderTx
     ⟨List.replicate 32 9, Token.TokenType.Yes⟩ 0 exKeyedOrder 2 3
     (by decide) (by decide) (by decide) (by decide) (by decide) (by decide)
     (by decide) (by decide)⟩

end ClaimC4

section MarketHelpers

/-- A successful `load_market_data` implies at least one market cell. -/
theorem count_market_cells_pos_of_load (ms : Script) (cells : List Cell)
    (md : Market.MarketData)
    (h : Market.load_market_data ms cells = .ok md) :
    Market.count_market_cells ms cells ≠ 0 := by
  unfold Market.load_market_data at h
  cases hf : Market.find_market_cell (script_hash ms) cells with
  | none =>
    rw [hf] at h
    exact Except.noConfusion h
  | some c =>
    unfold Market.find_market_cell at hf
    have hmem := List.mem_of_find?_eq_some hf
    have hpred := List.find?_some hf
    have hpos : 0 < Market.count_market_cells ms cells := by
      unfold Market.count_market_cells
      exact List.countP_pos_iff.mpr ⟨c, hmem, hpred⟩
    omega

/-- Acceptance of a transaction whose inputs hold a market cell goes
through `validate_transition` on the parsed input and output data. -/
theorem market_main_transition (ms : Script) (tx : Tx) (idat : Market.MarketData)
    (hacc : Market.market_main ms tx = .ok ())
    (hin : Market.load_market_data ms tx.inputs = .ok idat) :
    ∃ odat, Market.load_market_data ms tx.outputs = .ok odat ∧
      Market.validate_transition ms tx idat odat = .ok () := by
  unfold Market.market_main at hacc
  by_cases hoc : Market.count_market_cells ms tx.outputs ≠ 1
  · rw [if_pos hoc] at hacc
    exact Except.noConfusion hacc
  · rw [if_neg hoc] at hacc
    cases hti : Market.validate_type_id ms tx (Market.count_market_cells ms tx.inputs) with
    | error e =>
      rw [hti] at hacc
      exact Except.noConfusion hacc
    | ok u =>
      simp only [hti] at hacc
      cases hout : Market.load_market_data ms tx.outputs with
      | error e =>
        rw [hout] at hacc
        exact Except.noConfusion hacc
      | ok odat =>
        simp only [hout] at hacc
        have hic0 : Market.count_market_cells ms tx.inputs ≠ 0 :=
          count_market_cells_pos_of_load ms tx.inputs idat hin
        rw [if_neg hic0] at hacc
        by_cases hic1 : Market.count_market_cells ms tx.inputs = 1
        · rw [if_pos hic1] at hacc
          simp only [hin] at hacc
          exact ⟨odat, rfl, hacc⟩
        · rw [if_neg hic1] at hacc
          exact Except.noConfusion hacc

/-- A successful `validate_transition` yields successful loads, derived
identities and token counts, with `transition_rules` accepting them. -/
theorem validate_transition_elim (ms : Script) (tx : Tx)
    (idat odat : Market.MarketData)
    (h : Market.validate_transition ms tx idat odat = .ok ()) :
    ∃ icap ocap yes_h no_h icnt ocnt,
      Market.load_market_capacity ms tx.inputs = .ok icap ∧
      Market.load_market_capacity ms tx.outputs = .ok ocap ∧
      Market.derive_token_type_hash idat.token_code_hash idat.hash_type
        (script_hash ms) 1 = .ok yes_h ∧
      Market.derive_token_type_hash idat.token_code_hash idat.hash_type
        (script_hash ms) 2 = .ok no_h ∧
      Market.count_tokens tx.inputs yes_h no_h = .ok icnt ∧
      Market.count_tokens tx.outputs yes_h no_h = .ok ocnt ∧
      Market.transition_rules idat odat icap ocap icnt ocnt = .ok () := by
  unfold Market.validate_transition at h
  cases hlp : Market.validate_lock_preserved ms tx with
  | error e =>
    rw [hlp] at h
    exact Except.noConfusion h
  | ok u =>
    simp only [hlp] at h
    by_cases htc : idat.token_code_hash ≠ odat.token_code_hash
    · rw [if_pos htc] at h
      exact Except.noConfusion h
    · rw [if_neg htc] at h
      by_cases hht : idat.hash_type ≠ odat.hash_type
      · rw [if_pos hht] at h
        exact Except.noConfusion h
      · rw [if_neg hht] at h
        cases hicap : Market.load_market_capacity ms tx.inputs with
        | error e =>
          rw [hicap] at h
          exact Except.noConfusion h
        | ok icap =>
          simp only [hicap] at h
          cases hocap : Market.load_market_capacity ms tx.outputs with
          | error e =>
            rw [hocap] at h
            exact Except.noConfusion h
          | ok ocap =>
            simp only [hocap] at h
            cases hyes : Market.derive_token_type_hash idat.token_code_hash
                idat.hash_type (script_hash ms) 1 with
            | error e =>
              rw [hyes] at h
              exact Except.noConfusion h
            | ok yes_h =>
              simp only [hyes] at h
              cases hno : Market.derive_token_type_hash idat.token_code_hash
                  idat.hash_type (script_hash ms) 2 with
              | error e =>
                rw [hno] at h
                exact Except.noConfusion h
              | ok no_h =>
                simp only [hno] at h
                cases hicnt : Market.count_tokens tx.inputs yes_h no_h with
                | error e =>
                  rw [hicnt] at h
                  exact Except.noConfusion h
                | ok icnt =>
                  simp only [hicnt] at h
                  cases hocnt : Market.count_tokens tx.outputs yes_h no_h with
                  | error e =>
                    rw [hocnt] at h
                    exact Except.noConfusion h
                  | ok ocnt =>
                    simp only [hocnt] at h
                    exact ⟨icap, ocap, yes_h, no_h, icnt, ocnt,
                      rfl, rfl, rfl, rfl, hicnt, hocnt, h⟩

/-- Facts forced by an accepting burn branch. -/
theorem burn_rules_elim (icap ocap : Nat) (icnt ocnt : Market.TokenCounts)
    (h : Market.burn_rules icap ocap icnt ocnt = .ok ()) :
    ∃ d, 0 < d ∧ icnt.yes_tokens = ocnt.yes_tokens + d ∧
      icnt.no_tokens = ocnt.no_tokens + d ∧
      icap - ocap = d * SHANNONS_PER_TOKEN := by
  unfold Market.burn_rules at h
  cases hys : checked_sub_u128 icnt.yes_tokens ocnt.yes_tokens with
  | none =>
    rw [hys] at h
    exact Except.noConfusion h
  | some yb =>
    simp only [hys] at h
    cases hns : checked_sub_u128 icnt.no_tokens ocnt.no_tokens with
    | none =>
      rw [hns] at h
      exact Except.noConfusion h
    | some nb =>
      simp only [hns] at h
      by_cases h0 : yb = 0 ∧ nb = 0
      · rw [if_pos h0] at h
        exact Except.noConfusion h
      · rw [if_neg h0] at h
        by_cases hd : yb ≠ nb
        · rw [if_pos hd] at h
          exact Except.noConfusion h
        · rw [if_neg hd] at h
          cases hmul : checked_mul_u128 yb SHANNONS_PER_TOKEN with
          | none =>
            rw [hmul] at h
            exact Except.noConfusion h
          | some expected =>
            simp only [hmul] at h
            by_cases hlim : expected < U64_LIMIT
            · rw [if_pos hlim] at h
              by_cases hcd : icap - ocap ≠ expected
              · rw [if_pos hcd] at h
                exact Except.noConfusion h
              · push_neg at hd hcd
                unfold checked_sub_u128 at hys hns
                unfold checked_mul_u128 at hmul
                split at hys
                · injection hys with hys
                  split at hns
                  · injection hns with hns
                    split at hmul
                    · injection hmul with hmul
                      refine ⟨yb, by omega, by omega, by omega, by omega⟩
                    · exact Option.noConfusion hmul
                  · exact Option.noConfusion hns
                · exact Option.noConfusion hys
            · rw [if_neg hlim] at h
              exact Except.noConfusion h

/-- Facts forced by an accepting mint branch. -/
theorem mint_rules_elim (icap ocap : Nat) (icnt ocnt : Market.TokenCounts)
    (h : Market.mint_rules icap ocap icnt ocnt = .ok ()) :
    ∃ d, 0 < d ∧ ocnt.yes_tokens = icnt.yes_tokens + d ∧
      ocnt.no_tokens = icnt.no_tokens + d ∧
      ocap - icap = d * SHANNONS_PER_TOKEN := by
  unfold Market.mint_rules at h
  cases hys : checked_sub_u128 ocnt.yes_tokens icnt.yes_tokens with
  | none =>
    rw [hys] at h
    exact Except.noConfusion h
  | some yb =>
    simp only [hys] at h
    cases hns : checked_sub_u128 ocnt.no_tokens icnt.no_tokens with
    | none =>
      rw [hns] at h
      exact Except.noConfusion h
    | some nb =>
      simp only [hns] at h
      by_cases h0 : yb = 0 ∧ nb = 0
      · rw [if_pos h0] at h
        exact Except.noConfusion h
      · rw [if_neg h0] at h
        by_cases hd : yb ≠ nb
        · rw [if_pos hd] at h
          exact Except.noConfusion h
        · rw [if_neg hd] at h
          cases hmul : checked_mul_u128 yb SHANNONS_PER_TOKEN with
          | none =>
            rw [hmul] at h
            exact Except.noConfusion h
          | some expected =>
            simp only [hmul] at h
            by_cases hlim : expected < U64_LIMIT
            · rw [if_pos hlim] at h
              by_cases hcd : ocap - icap ≠ expected
              · rw [if_pos hcd] at h
                exact Except.noConfusion h
              · push_neg at hd hcd
                unfold checked_sub_u128 at hys hns
                unfold checked_mul_u128 at hmul
                split at hys
                · injection hys with hys
                  split at hns
                  · injection hns with hns
                    split at hmul
                    · injection hmul with hmul
                      refine ⟨yb, by omega, by omega, by omega, by omega⟩
                    · exact Option.noConfusion hmul
                  · exact Option.noConfusion hns
                · exact Option.noConfusion hys
            · rw [if_neg hlim] at h
              exact Except.noConfusion h

end MarketHelpers

section MarketRules

/-- On an unresolved market, any accepted capacity change is an equal-sided
mint or burn at the fixed collateral ratio. -/
theorem transition_rules_unresolved (idat odat : Market.MarketData)
    (icap ocap : Nat) (icnt ocnt : Market.TokenCounts)
    (h : Market.transition_rules idat odat icap ocap icnt ocnt = .ok ())
    (hres : idat.resolved = false) (hne : icap ≠ ocap) :
    ∃ d, 0 < d ∧
      ((icap < ocap ∧ ocnt.yes_tokens = icnt.yes_tokens + d ∧
        ocnt.no_tokens = icnt.no_tokens + d ∧
        ocap = icap + d * SHANNONS_PER_TOKEN) ∨
       (ocap < icap ∧ icnt.yes_tokens = ocnt.yes_tokens + d ∧
        icnt.no_tokens = ocnt.no_tokens + d ∧
        icap = ocap + d * SHANNONS_PER_TOKEN)) := by
  unfold Market.transition_rules at h
  simp only [hres, Bool.false_eq_true, if_false] at h
  rcases Nat.lt_trichotomy icap ocap with hlt | heq | hgt
  · rw [if_neg (by omega), if_pos hlt] at h
    cases hm : Market.mint_rules icap ocap icnt ocnt with
    | error e =>
      rw [hm] at h
      exact Except.noConfusion h
    | ok u =>
      obtain ⟨d, hd, hy, hn, hc⟩ := mint_rules_elim icap ocap icnt ocnt hm
      exact ⟨d, hd, Or.inl ⟨hlt, hy, hn, by omega⟩⟩
  · exact absurd heq hne
  · rw [if_pos hgt] at h
    cases hb : Market.burn_rules icap ocap icnt ocnt with
    | error e =>
      rw [hb] at h
      exact Except.noConfusion h
    | ok u =>
      obtain ⟨d, hd, hy, hn, hc⟩ := burn_rules_elim icap ocap icnt ocnt hb
      exact ⟨d, hd, Or.inr ⟨hgt, hy, hn, by omega⟩⟩

/-- Facts forced by an accepting `validate_claim`. -/
theorem validate_claim_elim (md : Market.MarketData) (icap ocap : Nat)
    (icnt ocnt : Market.TokenCounts)
    (h : Market.validate_claim md icap ocap icnt ocnt = .ok ()) :
    ∃ burned, 0 < burned ∧ icap - ocap = burned * SHANNONS_PER_TOKEN ∧
      (md.outcome = true →
        icnt.yes_tokens = ocnt.yes_tokens + burned ∧
        ocnt.no_tokens = icnt.no_tokens) ∧
      (md.outcome = false →
        icnt.no_tokens = ocnt.no_tokens + burned ∧
        ocnt.yes_tokens = icnt.yes_tokens) := by
  unfold Market.validate_claim at h
  cases hoc : md.outcome with
  | true =>
    simp only [hoc, if_true] at h
    cases hys : checked_sub_u128 icnt.yes_tokens ocnt.yes_tokens with
    | none =>
      simp only [hys] at h
      exact Except.noConfusion h
    | some yb =>
      simp only [hys] at h
      by_cases hlo : ocnt.no_tokens ≠ icnt.no_tokens
      · rw [if_pos hlo] at h
        exact Except.noConfusion h
      · rw [if_neg hlo] at h
        by_cases h0 : yb = 0
        · rw [if_pos h0] at h
          exact Except.noConfusion h
        · rw [if_neg h0] at h
          cases hmul : checked_mul_u128 yb SHANNONS_PER_TOKEN with
          | none =>
            rw [hmul] at h
            exact Except.noConfusion h
          | some expected =>
            simp only [hmul] at h
            by_cases hlim : expected < U64_LIMIT
            · rw [if_pos hlim] at h
              by_cases hcd : icap - ocap ≠ expected
              · rw [if_pos hcd] at h
                exact Except.noConfusion h
              · push_neg at hlo hcd
                unfold checked_sub_u128 at hys
                unfold checked_mul_u128 at hmul
                split at hys
                · injection hys with hys
                  split at hmul
                  · injection hmul with hmul
                    refine ⟨yb, by omega, by omega, fun _ => ⟨by omega, hlo⟩,
                      fun hfalse => by simp [hoc] at hfalse⟩
                  · exact Option.noConfusion hmul
                · exact Option.noConfusion hys
            · rw [if_neg hlim] at h
              exact Except.noConfusion h
  | false =>
    simp only [hoc, Bool.false_eq_true, if_false] at h
    cases hns : checked_sub_u128 icnt.no_tokens ocnt.no_tokens with
    | none =>
      simp only [hns] at h
      exact Except.noConfusion h
    | some nb =>
      simp only [hns] at h
      by_cases hlo : ocnt.yes_tokens ≠ icnt.yes_tokens
      · rw [if_pos hlo] at h
        exact Except.noConfusion h
      · rw [if_neg hlo] at h
        by_cases h0 : nb = 0
        · rw [if_pos h0] at h
          exact Except.noConfusion h
        · rw [if_neg h0] at h
          cases hmul : checked_mul_u128 nb SHANNONS_PER_TOKEN with
          | none =>
            rw [hmul] at h
            exact Except.noConfusion h
          | some expected =>
            simp only [hmul] at h
            by_cases hlim : expected < U64_LIMIT
            · rw [if_pos hlim] at h
              by_cases hcd : icap - ocap ≠ expected
              · rw [if_pos hcd] at h
                exact Except.noConfusion h
              · push_neg at hlo hcd
                unfold checked_sub_u128 at hns
                unfold checked_mul_u128 at hmul
                split at hns
                · injection hns with hns
                  split at hmul
                  · injection hmul with hmul
                    refine ⟨nb, by omega, by omega,
                      fun htrue => by simp [hoc] at htrue, fun _ => ⟨by omega, hlo⟩⟩
                  · exact Option.noConfusion hmul
                · exact Option.noConfusion hns
            · rw [if_neg hlim] at h
              exact Except.noConfusion h

/-- On a resolved market, acceptance freezes `resolved` and `outcome`,
never lets the capacity grow, and a strict decrease goes through
`validate_claim`. -/
theorem transition_rules_resolved (idat odat : Market.MarketData)
    (icap ocap : Nat) (icnt ocnt : Market.TokenCounts)
    (h : Market.transition_rules idat odat icap ocap icnt ocnt = .ok ())
    (hres : idat.resolved = true) :
    ocap ≤ icap ∧ odat.resolved = true ∧ odat.outcome = idat.outcome ∧
    (ocap < icap → Market.validate_claim idat icap ocap icnt ocnt = .ok ()) := by
  unfold Market.transition_rules at h
  simp only [hres, if_true] at h
  have post : ∀ (u : Unit),
      (if odat.resolved = false then (Except.error Market.Error.InvalidMarketData : Except Market.Error Unit)
       else if odat.outcome ≠ idat.outcome then .error .InvalidMarketData
       else .ok ()) = .ok () →
      odat.resolved = true ∧ odat.outcome = idat.outcome := by
    intro u hpost
    by_cases hr : odat.resolved = false
    · rw [if_pos hr] at hpost
      exact absurd hpost (by simp)
    · rw [if_neg hr] at hpost
      by_cases ho : odat.outcome ≠ idat.outcome
      · rw [if_pos ho] at hpost
        exact absurd hpost (by simp)
      · push_neg at ho
        exact ⟨by simpa using hr, ho⟩
  rcases Nat.lt_trichotomy ocap icap with hlt | heq | hgt
  · rw [if_pos hlt] at h
    cases hvc : Market.validate_claim idat icap ocap icnt ocnt with
    | error e =>
      rw [hvc] at h
      exact Except.noConfusion h
    | ok u =>
      cases u
      simp only [hvc] at h
      obtain ⟨h1, h2⟩ := post () h
      exact ⟨by omega, h1, h2, fun _ => rfl⟩
  · rw [if_neg (by omega), if_pos heq] at h
    by_cases hch : ocnt.yes_tokens ≠ icnt.yes_tokens ∨ ocnt.no_tokens ≠ icnt.no_tokens
    · rw [if_pos hch] at h
      exact Except.noConfusion h
    · rw [if_neg hch] at h
      obtain ⟨h1, h2⟩ := post () h
      exact ⟨by omega, h1, h2, fun hc => absurd hc (by omega)⟩
  · rw [if_neg (by omega), if_neg (by omega)] at h
    exact Except.noConfusion h

end MarketRules

section ClaimC1

/-- Claim C1: in any accepted Market-Validator transaction whose input
market cell is unresolved and whose market balance changes, the YES and NO
token totals (summed over cells whose type hash equals the identity
derived from the market's own fields) change by the same positive amount
`d`, in the direction of the balance change, and the absolute balance
change is exactly `d × SHANNONS_PER_TOKEN`. -/
theorem mint_burn_complete_set_ratio (ms : Script) (tx : Tx)
    (idat : Market.MarketData) (icap ocap : Nat) (yes_h no_h : Bytes)
    (icnt ocnt : Market.TokenCounts)
    (hacc : Market.market_main ms tx = .ok ())
    (hin : Market.load_market_data ms tx.inputs = .ok idat)
    (hres : idat.resolved = false)
    (hicap : Market.load_market_capacity ms tx.inputs = .ok icap)
    (hocap : Market.load_market_capacity ms tx.outputs = .ok ocap)
    (hne : icap ≠ ocap)
    (hyes : Market.derive_token_type_hash idat.token_code_hash idat.hash_type
      (script_hash ms) 1 = .ok yes_h)
    (hno : Market.derive_token_type_hash idat.token_code_hash idat.hash_type
      (script_hash ms) 2 = .ok no_h)
    (hicnt : Market.count_tokens tx.inputs yes_h no_h = .ok icnt)
    (hocnt : Market.count_tokens tx.outputs yes_h no_h = .ok ocnt) :
    ∃ d, 0 < d ∧
      ((icap < ocap ∧ ocnt.yes_tokens = icnt.yes_tokens + d ∧
        ocnt.no_tokens = icnt.no_tokens + d ∧
        ocap = icap + d * SHANNONS_PER_TOKEN) ∨
       (ocap < icap ∧ icnt.yes_tokens = ocnt.yes_tokens + d ∧
        icnt.no_tokens = ocnt.no_tokens + d ∧
        icap = ocap + d * SHANNONS_PER_TOKEN)) := by
  obtain ⟨odat, hout, htr⟩ := market_main_transition ms tx idat hacc hin
  obtain ⟨icap', ocap', yes_h', no_h', icnt', ocnt', h1, h2, h3, h4, h5, h6, hrules⟩ :=
    validate_transition_elim ms tx idat odat htr
  rw [hicap] at h1
  injection h1 with h1
  rw [hocap] at h2
  injection h2 with h2
  rw [hyes] at h3
  injection h3 with h3
  rw [hno] at h4
  injection h4 with h4
  subst h1 h2 h3 h4
  rw [hicnt] at h5
  injection h5 with h5
  rw [hocnt] at h6
  injection h6 with h6
  subst h5 h6
  exact transition_rules_unresolved idat odat icap ocap icnt ocnt hrules hres hne

/-- Claim C1 witness: minting one complete set for 10^10 shannons. -/
theorem mint_burn_complete_set_ratio_witness :
    Market.market_main exMktS exMintTx = .ok () ∧
    ∃ d, 0 < d ∧
      ((0 < 10000000000 ∧
        (Market.TokenCounts.mk 1 1).yes_tokens = (Market.TokenCounts.mk 0 0).yes_tokens + d ∧
        (Market.TokenCounts.mk 1 1).no_tokens = (Market.TokenCounts.mk 0 0).no_tokens + d ∧
        10000000000 = 0 + d * SHANNONS_PER_TOKEN) ∨
       (10000000000 < 0 ∧
        (Market.TokenCounts.mk 0 0).yes_tokens = (Market.TokenCounts.mk 1 1).yes_tokens + d ∧
        (Market.TokenCounts.mk 0 0).no_tokens = (Market.TokenCounts.mk 1 1).no_tokens + d ∧
        0 = 10000000000 + d * SHANNONS_PER_TOKEN)) :=
  ⟨by decide,
   mint_burn_complete_set_ratio exMktS exMintTx
     ⟨List.replicate 32 2, 1, false, false⟩ 0 10000000000
     (script_hash exYesTokS) (script_hash exNoTokS)
     (Market.TokenCounts.mk 0 0) (Market.TokenCounts.mk 1 1)
     (by decide) (by decide) (by decide) (by decide) (by decide) (by decide)
     (by decide) (by decide) (by decide) (by decide)⟩

end ClaimC1

section ClaimC2

/-- Claim C2: in any accepted Market-Validator transaction whose input
market cell is resolved and whose balance strictly decreases, a positive
amount `burned` of the winning side (YES when outcome is true, NO when
false) is burned, the losing side's total is exactly unchanged, and the
balance decrease is exactly `burned × SHANNONS_PER_TOKEN`. -/
theorem claim_redemption_exact (ms : Script) (tx : Tx)
    (idat : Market.MarketData) (icap ocap : Nat) (yes_h no_h : Bytes)
    (icnt ocnt : Market.TokenCounts)
    (hacc : Market.market_main ms tx = .ok ())
    (hin : Market.load_market_data ms tx.inputs = .ok idat)
    (hres : idat.resolved = true)
    (hicap : Market.load_market_capacity ms tx.inputs = .ok icap)
    (hocap : Market.load_market_capacity ms tx.outputs = .ok ocap)
    (hlt : ocap < icap)
    (hyes : Market.derive_token_type_hash idat.token_code_hash idat.hash_type
      (script_hash ms) 1 = .ok yes_h)
    (hno : Market.derive_token_type_hash idat.token_code_hash idat.hash_type
      (script_hash ms) 2 = .ok no_h)
    (hicnt : Market.count_tokens tx.inputs yes_h no_h = .ok icnt)
    (hocnt : Market.count_tokens tx.outputs yes_h no_h = .ok ocnt) :
    ∃ burned, 0 < burned ∧ icap = ocap + burned * SHANNONS_PER_TOKEN ∧
      (idat.outcome = true →
        icnt.yes_tokens = ocnt.yes_tokens + burned ∧
        ocnt.no_tokens = icnt.no_tokens) ∧
      (idat.outcome = false →
        icnt.no_tokens = ocnt.no_tokens + burned ∧
        ocnt.yes_tokens = icnt.yes_tokens) := by
  obtain ⟨odat, hout, htr⟩ := market_main_transition ms tx idat hacc hin
  obtain ⟨icap', ocap', yes_h', no_h', icnt', ocnt', h1, h2, h3, h4, h5, h6, hrules⟩ :=
    validate_transition_elim ms tx idat odat htr
  rw [hicap] at h1
  injection h1 with h1
  rw [hocap] at h2
  injection h2 with h2
  rw [hyes] at h3
  injection h3 with h3
  rw [hno] at h4
  injection h4 with h4
  subst h1 h2 h3 h4
  rw [hicnt] at h5
  injection h5 with h5
  rw [hocnt] at h6
  injection h6 with h6
  subst h5 h6
  obtain ⟨hle, hores, hoout, hclaim⟩ :=
    transition_rules_resolved idat odat icap ocap icnt ocnt hrules hres
  obtain ⟨burned, hb, hcd, hty, htn⟩ :=
    validate_claim_elim idat icap ocap icnt ocnt (hclaim hlt)
  exact ⟨burned, hb, by omega, hty, htn⟩

/-- Claim C2 witness: redeeming one winning YES token for 10^10 shannons. -/
theorem claim_redemption_exact_witness :
    Market.market_main exMktS exClaimTx = .ok () ∧
    ∃ burned, 0 < burned ∧ 10000000000 = 0 + burned * SHANNONS_PER_TOKEN ∧
      ((true : Bool) = true →
        (Market.TokenCounts.mk 1 0).yes_tokens = (Market.TokenCounts.mk 0 0).yes_tokens + burned ∧
        (Market.TokenCounts.mk 0 0).no_tokens = (Market.TokenCounts.mk 1 0).no_tokens) ∧
      ((true : Bool) = false →
        (Market.TokenCounts.mk 1 0).no_tokens = (Market.TokenCounts.mk 0 0).no_tokens + burned ∧
        (Market.TokenCounts.mk 0 0).yes_tokens = (Market.TokenCounts.mk 1 0).yes_tokens) :=
  ⟨by decide,
   claim_redemption_exact exMktS exClaimTx
     ⟨List.replicate 32 2, 1, true, true⟩ 10000000000 0
     (script_hash exYesTokS) (script_hash exNoTokS)
     (Market.TokenCounts.mk 1 0) (Market.TokenCounts.mk 0 0)
     (by decide) (by decide) (by decide) (by decide) (by decide) (by decide)
     (by decide) (by decide) (by decide) (by decide)⟩

end ClaimC2

section ClaimC8

/-- Claim C8 counterexample: an accepted transaction on a resolved market
whose input outcome byte is 1 and whose output outcome byte is 2 — the
parsed outcome is unchanged (both true) but the bytes differ, so the
outcome is not preserved byte-for-byte. -/
theorem resolved_outcome_byte_change :
    Market.market_main exMktS exOutcomeByteTx = .ok () ∧
    Market.load_market_data exMktS exOutcomeByteTx.inputs =
      .ok ⟨List.replicate 32 2, 1, true, true⟩ ∧
    (Market.find_market_cell (script_hash exMktS) exOutcomeByteTx.inputs).map
      (fun c => c.data.getD 34 0) = some 1 ∧
    (Market.find_market_cell (script_hash exMktS) exOutcomeByteTx.outputs).map
      (fun c => c.data.getD 34 0) = some 2 := by
  refine ⟨by decide, by decide, by decide, by decide⟩

/-- Claim C8 (amended): in any accepted Market-Validator transaction whose
input market cell is resolved, the output market cell parses as resolved
with the same parsed (boolean) outcome — though not necessarily the same
outcome byte — and the market balance does not increase. -/
theorem resolved_market_frozen (ms : Script) (tx : Tx)
    (idat : Market.MarketData)
    (hacc : Market.market_main ms tx = .ok ())
    (hin : Market.load_market_data ms tx.inputs = .ok idat)
    (hres : idat.resolved = true) :
    ∃ odat icap ocap,
      Market.load_market_data ms tx.outputs = .ok odat ∧
      Market.load_market_capacity ms tx.inputs = .ok icap ∧
      Market.load_market_capacity ms tx.outputs = .ok ocap ∧
      odat.resolved = true ∧ odat.outcome = idat.outcome ∧ ocap ≤ icap := by
  obtain ⟨odat, hout, htr⟩ := market_main_transition ms tx idat hacc hin
  obtain ⟨icap, ocap, yes_h, no_h, icnt, ocnt, h1, h2, h3, h4, h5, h6, hrules⟩ :=
    validate_transition_elim ms tx idat odat htr
  obtain ⟨hle, hores, hoout, _⟩ :=
    transition_rules_resolved idat odat icap ocap icnt ocnt hrules hres
  exact ⟨odat, icap, ocap, hout, h1, h2, hores, hoout, hle⟩

/-- Claim C8 witness: the amended statement at the byte-changing no-op. -/
theorem resolved_market_frozen_witness :
    Market.market_main exMktS exOutcomeByteTx = .ok () ∧
    ∃ odat icap ocap,
      Market.load_market_data exMktS exOutcomeByteTx.outputs = .ok odat ∧
      Market.load_market_capacity exMktS exOutcomeByteTx.inputs = .ok icap ∧
      Market.load_market_capacity exMktS exOutcomeByteTx.outputs = .ok ocap ∧
      odat.resolved = true ∧
      odat.outcome = (Market.MarketData.mk (List.replicate 32 2) 1 true true).outcome ∧
      ocap ≤ icap :=
  ⟨by decide,
   resolved_market_frozen exMktS exOutcomeByteTx
     ⟨List.replicate 32 2, 1, true, true⟩ (by decide) (by decide) (by decide)⟩

end ClaimC8
